import Mathlib

/-!
Verification development for the LA Times news scraper (`src/main.py`).

Strings are modelled as `List Char`.  Each Python-level operation used by
the scraper's extraction-and-classification pipeline is embedded as an
executable Lean definition; browser, network and spreadsheet effects are
modelled by explicit oracle parameters (a lookup that may fail is an
`Option`, a fetch that may fail is a `Bool`-valued oracle).
-/

set_option maxRecDepth 4096

/-- Embeds Python `str.lower` (ASCII case folding, which is all the
scraper's inputs exercise). -/
def lowerStr (s : List Char) : List Char := s.map Char.toLower

/-- Left-to-right scan for non-overlapping occurrences of `p`: at each
position either we are still skipping over the previously matched
occurrence (`skip > 0`), or we test whether `p` starts here and, on a
match, skip its remaining `p.length - 1` characters. -/
def pyCountAux (p : List Char) : List Char → Nat → Nat
  | [], _ => 0
  | c :: rest, skip =>
    match skip with
    | Nat.succ k => pyCountAux p rest k
    | 0 =>
      if p.isPrefixOf (c :: rest) then 1 + pyCountAux p rest (p.length - 1)
      else pyCountAux p rest 0

/-- Embeds Python `str.count`: number of non-overlapping occurrences of
`p` in `s`, scanning left to right; `s.count("")` is `len(s) + 1`. -/
def pyStrCount (s p : List Char) : Nat :=
  if p = [] then s.length + 1 else pyCountAux p s 0

/-- Embeds `src/main.py` line 103:
`title.lower().count(phrase.lower()) + description.lower().count(phrase.lower())`. -/
def count_search_phrases (title description phrase : List Char) : Nat :=
  pyStrCount (lowerStr title) (lowerStr phrase) +
    pyStrCount (lowerStr description) (lowerStr phrase)

/-- Spec-level notion: the number of case-insensitive (non-overlapping)
occurrences of `phrase` in a single string `s`. -/
def ciOccurrences (s phrase : List Char) : Nat :=
  pyStrCount (lowerStr s) (lowerStr phrase)

/-! ### Money detection (`check_for_money`, `src/main.py` lines 155-174)

The three regular expressions `\$\d[\d,]*\.?\d{0,2}`, `\d+ dollars` and
`\d+ USD` are embedded compositionally: each regex component maps a string
to the list of suffixes left over after the component consumes a matching
prefix, components are chained by `flatMap`, and `re.search` tries the
resulting matcher at every start position. -/

/-- Suffixes after consuming one character of class `p` (a regex character
class such as `\d`). -/
def charSuffixes (p : Char → Bool) : List Char → List (List Char)
  | [] => []
  | c :: rest => if p c then [rest] else []

/-- Suffixes after consuming zero or more characters of class `p` (a regex
`[class]*`). -/
def starClassSuffixes (p : Char → Bool) : List Char → List (List Char)
  | [] => [[]]
  | c :: rest =>
    (c :: rest) :: (if p c then starClassSuffixes p rest else [])

/-- Suffixes after consuming an optional character of class `p` (a regex
`class?`). -/
def optCharSuffixes (p : Char → Bool) (s : List Char) : List (List Char) :=
  s :: charSuffixes p s

/-- Suffixes after consuming the literal string `lit`. -/
def litSuffixes (lit s : List Char) : List (List Char) :=
  if lit.isPrefixOf s then [s.drop lit.length] else []

/-- Chains two suffix-producing regex components. -/
def andThen (f g : List Char → List (List Char)) : List Char → List (List Char) :=
  fun s => (f s).flatMap g

/-- Character class `[\d,]`. -/
def digitComma (c : Char) : Bool := c.isDigit || c = ','

/-- Leftover suffixes of a match of `\$\d[\d,]*\.?\d{0,2}` at the start of
the input. -/
def p1Suffixes : List Char → List (List Char) :=
  andThen (charSuffixes (fun c => c = '$'))
    (andThen (charSuffixes Char.isDigit)
      (andThen (starClassSuffixes digitComma)
        (andThen (optCharSuffixes (fun c => c = '.'))
          (andThen (optCharSuffixes Char.isDigit)
            (optCharSuffixes Char.isDigit)))))

/-- Leftover suffixes of a match of `\d+ dollars` at the start of the input. -/
def p2Suffixes : List Char → List (List Char) :=
  andThen (charSuffixes Char.isDigit)
    (andThen (starClassSuffixes Char.isDigit)
      (litSuffixes " dollars".toList))

/-- Leftover suffixes of a match of `\d+ USD` at the start of the input. -/
def p3Suffixes : List Char → List (List Char) :=
  andThen (charSuffixes Char.isDigit)
    (andThen (starClassSuffixes Char.isDigit)
      (litSuffixes " USD".toList))

/-- The pattern matches at the start of `s`. -/
def matchP1 (s : List Char) : Bool := !(p1Suffixes s).isEmpty

/-- The pattern matches at the start of `s`. -/
def matchP2 (s : List Char) : Bool := !(p2Suffixes s).isEmpty

/-- The pattern matches at the start of `s`. -/
def matchP3 (s : List Char) : Bool := !(p3Suffixes s).isEmpty

/-- Embeds `re.search`: the matcher `m` succeeds at some start position. -/
def reSearchP (m : List Char → Bool) : List Char → Bool
  | [] => m []
  | c :: rest => m (c :: rest) || reSearchP m rest

/-- Embeds `NewsScraper.check_for_money` (`src/main.py` lines 155-174):
the text is `f"{title} {description}"` and the three patterns are tried in
order, any match returning `True`. -/
def check_for_money (title description : List Char) : Bool :=
  reSearchP matchP1 (title ++ ' ' :: description) ||
    (reSearchP matchP2 (title ++ ' ' :: description) ||
      reSearchP matchP3 (title ++ ' ' :: description))

/-- A regex `class?` component: the consumed prefix is empty or a single
character of the class. -/
def OptChar (p : Char → Bool) (w : List Char) : Prop :=
  w = [] ∨ ∃ c, p c = true ∧ w = [c]

/-- The language of `\$\d[\d,]*\.?\d{0,2}`: a dollar sign, a digit, any
number of digits or commas, an optional dot, and up to two digits. -/
def MoneyPat1 (w : List Char) : Prop :=
  ∃ d mid dot t1 t2, d.isDigit = true ∧ (∀ c ∈ mid, digitComma c = true) ∧
    OptChar (fun c => c = '.') dot ∧ OptChar Char.isDigit t1 ∧
    OptChar Char.isDigit t2 ∧ w = '$' :: d :: (mid ++ (dot ++ (t1 ++ t2)))

/-- The language of `\d+ dollars`: one or more digits then the literal
` dollars`. -/
def MoneyPat2 (w : List Char) : Prop :=
  ∃ d ds, d.isDigit = true ∧ (∀ c ∈ ds, c.isDigit = true) ∧
    w = d :: (ds ++ " dollars".toList)

/-- The language of `\d+ USD`: one or more digits then the literal ` USD`. -/
def MoneyPat3 (w : List Char) : Prop :=
  ∃ d ds, d.isDigit = true ∧ (∀ c ∈ ds, c.isDigit = true) ∧
    w = d :: (ds ++ " USD".toList)

/-- Some monetary pattern has a match inside `s` (a contiguous substring of
`s` is in one of the three pattern languages). -/
def ContainsMoneyMatch (s : List Char) : Prop :=
  ∃ w, w <:+: s ∧ (MoneyPat1 w ∨ MoneyPat2 w ∨ MoneyPat3 w)

/-! ### Image URL resolution (`download_image`, `src/main.py` lines 122-153)

`urlparse`, `parse_qs` and `unquote` from `urllib.parse` are embedded for
ASCII-range inputs (`unquote` decodes each `%XX` escape to the character
with that code; multi-byte UTF-8 grouping is not modelled, which is
faithful for the ASCII-range escapes appearing in the site's URLs). -/

/-- Value of a hexadecimal digit. -/
def hexVal (c : Char) : Option Nat :=
  if '0' ≤ c ∧ c ≤ '9' then some (c.toNat - '0'.toNat)
  else if 'a' ≤ c ∧ c ≤ 'f' then some (c.toNat - 'a'.toNat + 10)
  else if 'A' ≤ c ∧ c ≤ 'F' then some (c.toNat - 'A'.toNat + 10)
  else none

/-- Decodes one piece produced by splitting on `%` (CPython's `unquote`
strategy): if the piece starts with two hexadecimal digits they become one
character, otherwise the `%` is kept verbatim. -/
def unquotePiece (item : List Char) : List Char :=
  match item with
  | a :: b :: rest =>
    match hexVal a, hexVal b with
    | some ha, some hb => Char.ofNat (16 * ha + hb) :: rest
    | _, _ => '%' :: item
  | _ => '%' :: item

/-- Splits on every occurrence of `sep`, like Python `s.split(sep)`. -/
def splitOnChar (sep : Char) : List Char → List (List Char)
  | [] => [[]]
  | c :: rest =>
    let r := splitOnChar sep rest
    if c = sep then [] :: r
    else
      match r with
      | [] => [[c]]
      | h :: t => (c :: h) :: t

/-- Embeds `urllib.parse.unquote` for ASCII-range escapes, following the
CPython implementation: split on `%`, keep the first piece, and decode
each later piece with `unquotePiece` (multi-byte UTF-8 grouping is not
modelled, which is faithful for ASCII-range escapes). -/
def unquote (s : List Char) : List Char :=
  match splitOnChar '%' s with
  | [] => []
  | h :: tail => h ++ tail.flatMap unquotePiece

/-- Splits at the first occurrence of `sep`, like Python `s.split(sep, 1)`;
`none` when `sep` does not occur. -/
def splitFirst (sep : Char) : List Char → Option (List Char × List Char)
  | [] => none
  | c :: rest =>
    if c = sep then some ([], rest)
    else (splitFirst sep rest).map fun pr => (c :: pr.1, pr.2)

/-- The part of `s` before the first `sep` (all of `s` when absent). -/
def takeBefore (sep : Char) (s : List Char) : List Char :=
  match splitFirst sep s with
  | some pr => pr.1
  | none => s

/-- Embeds the query extraction of `urllib.parse.urlparse`: the fragment
(after the first `#`) is removed first, the query is what follows the
first `?` of the remainder (empty when there is none). -/
def urlQuery (url : List Char) : List Char :=
  match splitFirst '?' (takeBefore '#' url) with
  | some pr => pr.2
  | none => []

/-- Embeds the `.replace('+', ' ')` step of query-string value decoding. -/
def plusToSpace (s : List Char) : List Char :=
  s.map fun c => if c = '+' then ' ' else c

/-- Embeds `urllib.parse.parse_qsl` with default options: split the query
on `&`, drop empty segments, segments without `=` and segments with an
empty value, and percent-decode names and values after turning `+` into a
space.  `parse_qs` groups these pairs into a dict preserving order. -/
def parse_qsl (qs : List Char) : List (List Char × List Char) :=
  (splitOnChar '&' qs).filterMap fun seg =>
    if seg.isEmpty then none
    else
      match splitFirst '=' seg with
      | none => none
      | some pr =>
        if pr.2.isEmpty then none
        else some (unquote (plusToSpace pr.1), unquote (plusToSpace pr.2))

/-- The query parameter name the relay URL uses for the real image URL. -/
def urlKey : List Char := "url".toList

/-- Embeds `src/main.py` lines 135-139: parse the query string of the
relay URL, look up the `url` parameter (`query_params['url'][0]`), and
apply `unquote` to the (already once-decoded) value. -/
def resolveImageUrl (url : List Char) : Option (List Char) :=
  match (parse_qsl (urlQuery url)).find? (fun pr => pr.1 = urlKey) with
  | some pr => some (unquote pr.2)
  | none => none

/-- Embeds `actual_image_url.split("/")[-1]` (`src/main.py` line 140). -/
def lastSegment (s : List Char) : List Char := (splitOnChar '/' s).getLastD []

/-- The raw (undecoded) value of the first `&`-segment of the query string
whose raw name is `key` and whose value is non-empty; used to state what
the spec calls the parameter's raw value. -/
def rawParamValue (key qs : List Char) : Option (List Char) :=
  ((splitOnChar '&' qs).filterMap fun seg =>
    match splitFirst '=' seg with
    | some pr => if pr.1 = key ∧ ¬pr.2.isEmpty then some pr.2 else none
    | none => none).head?

/-- Embeds `NewsScraper.download_image` (`src/main.py` lines 122-153).
`url = none` models a `None` attribute; an empty string is falsy for
`if url:`; `fetchOk` models whether `go_to` plus `screenshot` succeed for
a given resolved URL (any exception is caught and yields `None`). -/
def download_image (fetchOk : List Char → Bool) (url : Option (List Char)) :
    Option (List Char) :=
  match url with
  | none => none
  | some u =>
    if u.isEmpty then none
    else
      match resolveImageUrl u with
      | some actual => if fetchOk actual then some (lastSegment actual) else none
      | none => none

/-! ### Extraction, persistence and the top-level run
(`extract_news`, `save_to_excel`, `run`; `src/main.py` lines 86-120,
176-197, 199-214)

Browser lookups are modelled by `PageQueries`: a `none` field means the
corresponding Selenium call raises (element not found), which the single
`try` block of `extract_news` turns into a logged, re-raised failure.
Spreadsheet writes are modelled as the list of rows handed to the Excel
collaborator; `excelOk` models whether the workbook operations succeed. -/

/-- The one domain record assembled by `extract_news`. -/
structure Article where
  title : List Char
  date : List Char
  description : List Char
  imageFilename : Option (List Char)
  searchPhraseCount : Nat
  containsMoney : Bool
deriving DecidableEq

/-- A spreadsheet cell value as produced from the article dict. -/
inductive Cell where
  | str (v : List Char)
  | num (v : Nat)
  | bool (v : Bool)
  | empty
deriving DecidableEq

/-- The header row: the keys of the article dict, in insertion order
(`src/main.py` lines 106-113). -/
def headerCells : List Cell :=
  [Cell.str "Title".toList, Cell.str "Date".toList, Cell.str "Description".toList,
   Cell.str "Image Filename".toList, Cell.str "Count of Search Phrases".toList,
   Cell.str "Contains Money".toList]

/-- The data row: the values of the article dict, in the same order; an
absent image filename is an empty cell (Python `None`). -/
def articleCells (a : Article) : List Cell :=
  [Cell.str a.title, Cell.str a.date, Cell.str a.description,
   (match a.imageFilename with | some f => Cell.str f | none => Cell.empty),
   Cell.num a.searchPhraseCount, Cell.bool a.containsMoney]

/-- Embeds `os.path.join` for the cases the scraper exercises. -/
def osJoin (a b : List Char) : List Char :=
  if b.head? = some '/' then b
  else if a.isEmpty then b
  else if a.getLast? = some '/' then a ++ b
  else a ++ '/' :: b

/-- Embeds `NewsScraper.save_to_excel` (`src/main.py` lines 176-197):
creates `news_data.xlsx` under the output directory, appends the header
row built from the first article's keys, then one row per article; an
empty list would raise `IndexError` on `articles[0]`, and any workbook
failure (`excelOk = false`) is logged and re-raised. -/
def save_to_excel (excelOk : Bool) (outputDir : List Char) (articles : List Article) :
    Except Unit (List Char × List (List Cell)) :=
  if excelOk then
    match articles with
    | [] => Except.error ()
    | _ :: _ =>
      Except.ok (osJoin outputDir "news_data.xlsx".toList,
        headerCells :: articles.map articleCells)
  else Except.error ()

/-- The browser lookups `extract_news` performs, in source order; a `none`
means the lookup raises. -/
structure PageQueries where
  first_item : Option Unit
  image_src : Option (Option (List Char))
  title_text : Option (List Char)
  description_text : Option (List Char)
  date_text : Option (List Char)
deriving DecidableEq

/-- Embeds `NewsScraper.extract_news` (`src/main.py` lines 86-120): the
five browser lookups happen in order inside one `try` block, any raising
lookup aborts the whole extraction (logged, re-raised), and on success the
article is assembled and handed to `save_to_excel`.  The second component
is the list of spreadsheet rows written. -/
def extract_news (pg : PageQueries) (fetchOk : List Char → Bool) (excelOk : Bool)
    (outputDir search_phrase : List Char) :
    Except Unit Article × List (List Cell) :=
  match pg.first_item with
  | none => (Except.error (), [])
  | some _ =>
    match pg.image_src with
    | none => (Except.error (), [])
    | some image_url =>
      match pg.title_text with
      | none => (Except.error (), [])
      | some title =>
        match pg.description_text with
        | none => (Except.error (), [])
        | some description =>
          match pg.date_text with
          | none => (Except.error (), [])
          | some date =>
            let article : Article :=
              { title := title, date := date, description := description,
                imageFilename := download_image fetchOk image_url,
                searchPhraseCount := count_search_phrases title description search_phrase,
                containsMoney := check_for_money title description }
            match save_to_excel excelOk outputDir [article] with
            | Except.ok pr => (Except.ok article, pr.2)
            | Except.error _ => (Except.error (), [])

/-- Outcome of `NewsScraper.run`: whether an exception escaped `run`,
whether the browser was closed, and whether the pipeline completed. -/
structure RunOutcome where
  raised : Bool
  browserClosed : Bool
  succeeded : Bool
deriving DecidableEq

/-- Embeds `NewsScraper.run` (`src/main.py` lines 199-214): the `try`
block runs open-site, search and extract (which persists) in order, each
failing step re-raising; the `except` block only logs, so nothing
propagates out of `run`; the `finally` block closes the browser on every
path. -/
def run (openOk searchOk : Bool) (pg : PageQueries) (fetchOk : List Char → Bool)
    (excelOk : Bool) (outputDir search_phrase : List Char) :
    RunOutcome × List (List Cell) :=
  let step : Except Unit Unit × List (List Cell) :=
    if openOk then
      if searchOk then
        let er := extract_news pg fetchOk excelOk outputDir search_phrase
        (er.1.map fun _ => (), er.2)
      else (Except.error (), [])
    else (Except.error (), [])
  ({ raised := false, browserClosed := true,
     succeeded := match step.1 with | Except.ok _ => true | Except.error _ => false },
   step.2)

/-- C1: for a non-empty search phrase, the computed `searchPhraseCount` is
the number of case-insensitive occurrences of the phrase in the title plus
the number of case-insensitive occurrences in the description, each counted
independently. -/
theorem c1_searchPhraseCount_additive (title description phrase : List Char)
    (_hp : phrase ≠ []) :
    count_search_phrases title description phrase =
      ciOccurrences title phrase + ciOccurrences description phrase := rfl

/-- Witness for C1 at a concrete, case-mixed input: title `Ship ship SHIP`,
description `shipment`, phrase `ship` gives 3 + 1 = 4. -/
theorem c1_searchPhraseCount_additive_witness :
    "ship".toList ≠ [] ∧
      count_search_phrases "Ship ship SHIP".toList "shipment".toList "ship".toList =
        ciOccurrences "Ship ship SHIP".toList "ship".toList +
          ciOccurrences "shipment".toList "ship".toList ∧
      count_search_phrases "Ship ship SHIP".toList "shipment".toList "ship".toList = 4 :=
  ⟨by decide,
   c1_searchPhraseCount_additive "Ship ship SHIP".toList "shipment".toList "ship".toList
     (by decide),
   by decide⟩

/-- C10: occurrences are counted non-overlapping: with phrase `aa`, title
`aaa` and empty description the computed count is 1, not 2. -/
theorem c10_count_non_overlapping :
    count_search_phrases "aaa".toList "".toList "aa".toList = 1 ∧
      count_search_phrases "aaa".toList "".toList "aa".toList ≠ 2 := by
  constructor
  · decide
  · decide

/-- C2: `containsMoney` is true on the three monetary examples and false
when no price is mentioned. -/
theorem c2_containsMoney_examples :
    check_for_money "Shipment costs $1,200.50".toList "".toList = true ∧
      check_for_money "Costs 50 dollars".toList "".toList = true ∧
      check_for_money "Costs 50 USD".toList "".toList = true ∧
      check_for_money "No price mentioned".toList "".toList = false := by
  refine ⟨by decide, by decide, by decide, by decide⟩

/-- Membership in `charSuffixes`: one matching character was consumed. -/
theorem mem_charSuffixes {p : Char → Bool} {s t : List Char} :
    t ∈ charSuffixes p s ↔ ∃ c, p c = true ∧ s = c :: t := by
  cases s with
  | nil => simp [charSuffixes]
  | cons c rest =>
    simp only [charSuffixes]
    constructor
    · intro hmem
      by_cases hpc : p c = true
      · rw [if_pos hpc, List.mem_singleton] at hmem
        exact ⟨c, hpc, by rw [hmem]⟩
      · rw [if_neg hpc] at hmem
        cases hmem
    · rintro ⟨c', hc', heq⟩
      rw [List.cons.injEq] at heq
      rcases heq with ⟨rfl, rfl⟩
      rw [if_pos hc']
      exact List.mem_singleton.mpr rfl

/-- Membership in `starClassSuffixes`: a (possibly empty) run of class
characters was consumed. -/
theorem mem_starClassSuffixes {p : Char → Bool} {s t : List Char} :
    t ∈ starClassSuffixes p s ↔ ∃ w, (∀ c ∈ w, p c = true) ∧ s = w ++ t := by
  induction s generalizing t with
  | nil =>
    simp only [starClassSuffixes, List.mem_singleton]
    constructor
    · rintro rfl
      exact ⟨[], fun x hx => absurd hx (List.not_mem_nil x), rfl⟩
    · rintro ⟨w, _, heq⟩
      rcases List.append_eq_nil.mp heq.symm with ⟨rfl, rfl⟩
      rfl
  | cons c rest ih =>
    simp only [starClassSuffixes, List.mem_cons]
    constructor
    · rintro (rfl | hmem)
      · exact ⟨[], fun x hx => absurd hx (List.not_mem_nil x), rfl⟩
      · by_cases hpc : p c = true
        · rw [if_pos hpc] at hmem
          rcases ih.mp hmem with ⟨w, hw, rfl⟩
          refine ⟨c :: w, ?_, rfl⟩
          intro x hx
          rcases List.mem_cons.mp hx with rfl | hx'
          · exact hpc
          · exact hw x hx'
        · rw [if_neg hpc] at hmem
          cases hmem
    · rintro ⟨w, hw, heq⟩
      cases w with
      | nil =>
        rw [List.nil_append] at heq
        exact Or.inl heq.symm
      | cons c' w' =>
        rw [List.cons_append, List.cons.injEq] at heq
        rcases heq with ⟨rfl, heq'⟩
        right
        rw [if_pos (hw c (List.mem_cons_self c w'))]
        exact ih.mpr ⟨w', fun x hx => hw x (List.mem_cons_of_mem c hx), heq'⟩

/-- Membership in `optCharSuffixes`: an optional class character was
consumed. -/
theorem mem_optCharSuffixes {p : Char → Bool} {s t : List Char} :
    t ∈ optCharSuffixes p s ↔ ∃ w, OptChar p w ∧ s = w ++ t := by
  simp only [optCharSuffixes, List.mem_cons, mem_charSuffixes, OptChar]
  constructor
  · rintro (rfl | ⟨c, hc, rfl⟩)
    · exact ⟨[], Or.inl rfl, rfl⟩
    · exact ⟨[c], Or.inr ⟨c, hc, rfl⟩, rfl⟩
  · rintro ⟨w, rfl | ⟨c, hc, rfl⟩, heq⟩
    · exact Or.inl heq.symm
    · exact Or.inr ⟨c, hc, heq⟩

/-- Membership in `litSuffixes`: the literal was consumed. -/
theorem mem_litSuffixes {lit s t : List Char} :
    t ∈ litSuffixes lit s ↔ s = lit ++ t := by
  unfold litSuffixes
  by_cases h : lit.isPrefixOf s = true
  · obtain ⟨r, rfl⟩ : ∃ r, lit ++ r = s := List.isPrefixOf_iff_prefix.mp h
    rw [if_pos h, List.mem_singleton, List.drop_left]
    constructor
    · rintro rfl
      rfl
    · intro heq
      exact (List.append_cancel_left heq).symm
  · rw [if_neg h]
    simp only [List.not_mem_nil, false_iff]
    rintro rfl
    exact h ( List.isPrefixOf_iff_prefix.mpr (List.prefix_append lit t))

/-- Membership through a chained component. -/
theorem mem_andThen {f g : List Char → List (List Char)} {s t : List Char} :
    t ∈ andThen f g s ↔ ∃ u, u ∈ f s ∧ t ∈ g u := by
  simp [andThen, List.mem_flatMap]

/-- A matcher succeeds exactly when its suffix list is non-empty. -/
theorem bnot_isEmpty_eq_true {l : List (List Char)} :
    (!l.isEmpty) = true ↔ ∃ t, t ∈ l := by
  cases l <;> simp

/-- A leftover suffix of `p1Suffixes` witnesses a `MoneyPat1` match at the
start of the input. -/
theorem mem_p1Suffixes {s t : List Char} :
    t ∈ p1Suffixes s ↔ ∃ w, MoneyPat1 w ∧ s = w ++ t := by
  simp only [p1Suffixes, mem_andThen, mem_charSuffixes, mem_starClassSuffixes,
    mem_optCharSuffixes]
  constructor
  · rintro ⟨u1, ⟨c, hc, rfl⟩, u2, ⟨d, hd, rfl⟩, u3, ⟨mid, hmid, rfl⟩, u4, ⟨dot, hdot, rfl⟩,
      u5, ⟨t1, ht1, rfl⟩, t2, ht2, rfl⟩
    obtain rfl : c = '$' := of_decide_eq_true hc
    exact ⟨'$' :: d :: (mid ++ (dot ++ (t1 ++ t2))),
      ⟨d, mid, dot, t1, t2, hd, hmid, hdot, ht1, ht2, rfl⟩, by simp [List.append_assoc]⟩
  · rintro ⟨w, ⟨d, mid, dot, t1, t2, hd, hmid, hdot, ht1, ht2, rfl⟩, rfl⟩
    exact ⟨d :: (mid ++ (dot ++ (t1 ++ (t2 ++ t)))), ⟨'$', by decide, by simp [List.append_assoc]⟩,
      mid ++ (dot ++ (t1 ++ (t2 ++ t))), ⟨d, hd, rfl⟩,
      dot ++ (t1 ++ (t2 ++ t)), ⟨mid, hmid, rfl⟩,
      t1 ++ (t2 ++ t), ⟨dot, hdot, rfl⟩,
      t2 ++ t, ⟨t1, ht1, rfl⟩,
      t2, ht2, rfl⟩

/-- A leftover suffix of `p2Suffixes` witnesses a `MoneyPat2` match at the
start of the input. -/
theorem mem_p2Suffixes {s t : List Char} :
    t ∈ p2Suffixes s ↔ ∃ w, MoneyPat2 w ∧ s = w ++ t := by
  simp only [p2Suffixes, mem_andThen, mem_charSuffixes, mem_starClassSuffixes,
    mem_litSuffixes]
  constructor
  · rintro ⟨u1, ⟨d, hd, rfl⟩, u2, ⟨ds, hds, rfl⟩, rfl⟩
    exact ⟨d :: (ds ++ " dollars".toList), ⟨d, ds, hd, hds, rfl⟩, by simp [List.append_assoc]⟩
  · rintro ⟨w, ⟨d, ds, hd, hds, rfl⟩, rfl⟩
    exact ⟨ds ++ (" dollars".toList ++ t), ⟨d, hd, by simp [List.append_assoc]⟩,
      " dollars".toList ++ t, ⟨ds, hds, rfl⟩, rfl⟩

/-- A leftover suffix of `p3Suffixes` witnesses a `MoneyPat3` match at the
start of the input. -/
theorem mem_p3Suffixes {s t : List Char} :
    t ∈ p3Suffixes s ↔ ∃ w, MoneyPat3 w ∧ s = w ++ t := by
  simp only [p3Suffixes, mem_andThen, mem_charSuffixes, mem_starClassSuffixes,
    mem_litSuffixes]
  constructor
  · rintro ⟨u1, ⟨d, hd, rfl⟩, u2, ⟨ds, hds, rfl⟩, rfl⟩
    exact ⟨d :: (ds ++ " USD".toList), ⟨d, ds, hd, hds, rfl⟩, by simp [List.append_assoc]⟩
  · rintro ⟨w, ⟨d, ds, hd, hds, rfl⟩, rfl⟩
    exact ⟨ds ++ (" USD".toList ++ t), ⟨d, hd, by simp [List.append_assoc]⟩,
      " USD".toList ++ t, ⟨ds, hds, rfl⟩, rfl⟩

/-- `matchP1` succeeds exactly when a `MoneyPat1` word starts the input. -/
theorem matchP1_iff {s : List Char} :
    matchP1 s = true ↔ ∃ w r, MoneyPat1 w ∧ s = w ++ r := by
  rw [matchP1, bnot_isEmpty_eq_true]
  constructor
  · rintro ⟨t, ht⟩
    rcases mem_p1Suffixes.mp ht with ⟨w, hw, rfl⟩
    exact ⟨w, t, hw, rfl⟩
  · rintro ⟨w, r, hw, rfl⟩
    exact ⟨r, mem_p1Suffixes.mpr ⟨w, hw, rfl⟩⟩

/-- `matchP2` succeeds exactly when a `MoneyPat2` word starts the input. -/
theorem matchP2_iff {s : List Char} :
    matchP2 s = true ↔ ∃ w r, MoneyPat2 w ∧ s = w ++ r := by
  rw [matchP2, bnot_isEmpty_eq_true]
  constructor
  · rintro ⟨t, ht⟩
    rcases mem_p2Suffixes.mp ht with ⟨w, hw, rfl⟩
    exact ⟨w, t, hw, rfl⟩
  · rintro ⟨w, r, hw, rfl⟩
    exact ⟨r, mem_p2Suffixes.mpr ⟨w, hw, rfl⟩⟩

/-- `matchP3` succeeds exactly when a `MoneyPat3` word starts the input. -/
theorem matchP3_iff {s : List Char} :
    matchP3 s = true ↔ ∃ w r, MoneyPat3 w ∧ s = w ++ r := by
  rw [matchP3, bnot_isEmpty_eq_true]
  constructor
  · rintro ⟨t, ht⟩
    rcases mem_p3Suffixes.mp ht with ⟨w, hw, rfl⟩
    exact ⟨w, t, hw, rfl⟩
  · rintro ⟨w, r, hw, rfl⟩
    exact ⟨r, mem_p3Suffixes.mpr ⟨w, hw, rfl⟩⟩

/-- `re.search` succeeds exactly when the matcher accepts some suffix. -/
theorem reSearchP_eq_true_iff {m : List Char → Bool} {s : List Char} :
    reSearchP m s = true ↔ ∃ t, t <:+ s ∧ m t = true := by
  induction s with
  | nil =>
    simp only [reSearchP]
    constructor
    · intro h
      exact ⟨[], List.suffix_refl [], h⟩
    · rintro ⟨t, hts, hm⟩
      rw [List.suffix_nil.mp hts] at hm
      exact hm
  | cons c rest ih =>
    simp only [reSearchP, Bool.or_eq_true, ih]
    constructor
    · rintro (h | ⟨t, hts, hm⟩)
      · exact ⟨c :: rest, List.suffix_refl _, h⟩
      · exact ⟨t, hts.trans (List.suffix_cons c rest), hm⟩
    · rintro ⟨t, hts, hm⟩
      rcases List.suffix_cons_iff.mp hts with rfl | hts'
      · exact Or.inl hm
      · exact Or.inr ⟨t, hts', hm⟩

/-- For a matcher whose success means a language word starts the input,
`re.search` success means a language word occurs as a contiguous substring. -/
theorem reSearch_spec {m : List Char → Bool} {L : List Char → Prop}
    (hm : ∀ u, m u = true ↔ ∃ w r, L w ∧ u = w ++ r) (s : List Char) :
    reSearchP m s = true ↔ ∃ w, w <:+: s ∧ L w := by
  rw [reSearchP_eq_true_iff]
  constructor
  · rintro ⟨t, ⟨u, rfl⟩, hmt⟩
    rcases (hm t).mp hmt with ⟨w, r, hL, rfl⟩
    exact ⟨w, ⟨u, r, by rw [List.append_assoc]⟩, hL⟩
  · rintro ⟨w, ⟨u, v, rfl⟩, hL⟩
    exact ⟨w ++ v, ⟨u, by rw [List.append_assoc]⟩, (hm _).mpr ⟨w, v, hL, rfl⟩⟩

/-- The money classifier's search expression is equivalent to the
declarative `ContainsMoneyMatch`. -/
theorem containsMoneyMatch_iff (s : List Char) :
    ContainsMoneyMatch s ↔
      (reSearchP matchP1 s || (reSearchP matchP2 s || reSearchP matchP3 s)) = true := by
  rw [Bool.or_eq_true, Bool.or_eq_true,
    reSearch_spec (fun u => matchP1_iff) s,
    reSearch_spec (fun u => matchP2_iff) s,
    reSearch_spec (fun u => matchP3_iff) s]
  constructor
  · rintro ⟨w, hinf, h | h | h⟩
    · exact Or.inl ⟨w, hinf, h⟩
    · exact Or.inr (Or.inl ⟨w, hinf, h⟩)
    · exact Or.inr (Or.inr ⟨w, hinf, h⟩)
  · rintro (⟨w, hinf, h⟩ | ⟨w, hinf, h⟩ | ⟨w, hinf, h⟩)
    · exact ⟨w, hinf, Or.inl h⟩
    · exact ⟨w, hinf, Or.inr (Or.inl h)⟩
    · exact ⟨w, hinf, Or.inr (Or.inr h)⟩

/-- C3 counterexample: with title `Costs 50` and description `dollars` the
classifier returns true (the code inserts a space between title and
description), but the plain concatenation `Costs 50dollars` contains no
match of any of the three monetary patterns, so the claim as stated (over
the concatenation of title and description) is false. -/
theorem c3_counterexample_concatenation :
    check_for_money "Costs 50".toList "dollars".toList = true ∧
      ¬ ContainsMoneyMatch ("Costs 50".toList ++ "dollars".toList) := by
  constructor
  · decide
  · rw [containsMoneyMatch_iff]
    decide

/-- C3 (amended): `containsMoney` is true if and only if the
space-separated concatenation of title and description (title, one space,
description — the text the code actually builds) contains a match of one
of the three monetary patterns; the patterns are tried in order and any
single match yields true. -/
theorem c3_amended_containsMoney_iff (title description : List Char) :
    check_for_money title description = true ↔
      ContainsMoneyMatch (title ++ ' ' :: description) :=
  (containsMoneyMatch_iff (title ++ ' ' :: description)).symm

/-- `splitFirst` finds nothing when the separator is absent. -/
theorem splitFirst_eq_none {sep : Char} {s : List Char} (h : sep ∉ s) :
    splitFirst sep s = none := by
  induction s with
  | nil => rfl
  | cons c rest ih =>
    have hc : ¬ c = sep := by rintro rfl; exact h (List.mem_cons_self c rest)
    have hr : splitFirst sep rest = none :=
      ih fun hm => h (List.mem_cons_of_mem c hm)
    simp [splitFirst, hc, hr]

/-- `splitFirst` splits at the first separator. -/
theorem splitFirst_append {sep : Char} {a b : List Char} (h : sep ∉ a) :
    splitFirst sep (a ++ sep :: b) = some (a, b) := by
  induction a with
  | nil => simp [splitFirst]
  | cons c rest ih =>
    have hc : ¬ c = sep := by rintro rfl; exact h (List.mem_cons_self c rest)
    have hr := ih fun hm => h (List.mem_cons_of_mem c hm)
    simp [splitFirst, hc, hr]

/-- `takeBefore` is the identity when the separator is absent. -/
theorem takeBefore_eq_self {sep : Char} {s : List Char} (h : sep ∉ s) :
    takeBefore sep s = s := by
  rw [takeBefore, splitFirst_eq_none h]

/-- `splitOnChar` yields one piece when the separator is absent. -/
theorem splitOnChar_eq_single {sep : Char} {s : List Char} (h : sep ∉ s) :
    splitOnChar sep s = [s] := by
  induction s with
  | nil => rfl
  | cons c rest ih =>
    have hc : ¬ c = sep := by rintro rfl; exact h (List.mem_cons_self c rest)
    have hr : splitOnChar sep rest = [rest] :=
      ih fun hm => h (List.mem_cons_of_mem c hm)
    simp [splitOnChar, hc, hr]

/-- `plusToSpace` is the identity when no `+` occurs. -/
theorem plusToSpace_eq_self {s : List Char} (h : '+' ∉ s) :
    plusToSpace s = s := by
  induction s with
  | nil => rfl
  | cons c rest ih =>
    have hc : ¬ c = '+' := by rintro rfl; exact h (List.mem_cons_self _ _)
    have hr : plusToSpace rest = rest :=
      ih fun hm => h (List.mem_cons_of_mem c hm)
    show (if c = '+' then ' ' else c) :: plusToSpace rest = c :: rest
    rw [if_neg hc, hr]

/-- C4 counterexample: for the relay URL `https://relay.example/img?url=a%252Fb`
the raw value of the `url` parameter is `a%252Fb`, whose single
percent-decoding is `a%2Fb`; but the code resolves the image URL to `a/b`
(the query parser already decoded once and the code decodes again), so the
resolved URL is not the single percent-decoding of the raw value. -/
theorem c4_counterexample_single_decoding :
    rawParamValue urlKey
        (urlQuery "https://relay.example/img?url=a%252Fb".toList) =
      some "a%252Fb".toList ∧
    resolveImageUrl "https://relay.example/img?url=a%252Fb".toList =
      some "a/b".toList ∧
    unquote "a%252Fb".toList = "a%2Fb".toList ∧
    "a/b".toList ≠ "a%2Fb".toList := by
  refine ⟨by decide, by decide, by decide, by decide⟩

/-- C4 (amended): for a relay URL whose query holds a `url` parameter with
raw value `raw` (no `&`, `+` or `#` in the raw value, no `?` or `#` before
the query), the resolved actual image URL is the percent-decoding applied
twice to `raw` — once by query parsing (`parse_qs`) and once by the code's
explicit `unquote` — and, when the fetch succeeds, the saved filename is
the substring of the resolved URL after its last `/`. -/
theorem c4_amended_double_decoding (pre raw : List Char)
    (hpre1 : '#' ∉ pre) (hpre2 : '?' ∉ pre)
    (hraw1 : raw ≠ []) (hraw2 : '#' ∉ raw) (hraw3 : '&' ∉ raw) (hraw4 : '+' ∉ raw) :
    resolveImageUrl (pre ++ '?' :: ("url=".toList ++ raw)) =
        some (unquote (unquote raw)) ∧
      ∀ fetchOk : List Char → Bool, fetchOk (unquote (unquote raw)) = true →
        download_image fetchOk (some (pre ++ '?' :: ("url=".toList ++ raw))) =
          some (lastSegment (unquote (unquote raw))) := by
  have hq : urlQuery (pre ++ '?' :: ("url=".toList ++ raw)) = "url=".toList ++ raw := by
    have hnot : '#' ∉ pre ++ '?' :: ("url=".toList ++ raw) := by
      intro hm
      rcases List.mem_append.mp hm with hm | hm
      · exact hpre1 hm
      · rcases List.mem_cons.mp hm with hm | hm
        · exact absurd hm (by decide)
        · rcases List.mem_append.mp hm with hm | hm
          · exact absurd hm (by decide)
          · exact hraw2 hm
    rw [urlQuery, takeBefore_eq_self hnot, splitFirst_append hpre2]
  have hsplit : splitOnChar '&' ("url=".toList ++ raw) = ["url=".toList ++ raw] := by
    apply splitOnChar_eq_single
    intro hm
    rcases List.mem_append.mp hm with hm | hm
    · exact absurd hm (by decide)
    · exact hraw3 hm
  have hfirst : splitFirst '=' ("url=".toList ++ raw) = some (['u', 'r', 'l'], raw) := by
    have heq : ("url=".toList ++ raw) = ['u', 'r', 'l'] ++ '=' :: raw := rfl
    rw [heq, splitFirst_append (by decide)]
  have hne : ("url=".toList ++ raw).isEmpty = false := rfl
  have hqsl : parse_qsl ("url=".toList ++ raw) = [(urlKey, unquote raw)] := by
    rw [parse_qsl, hsplit]
    have hrawne : raw.isEmpty = false := by
      cases raw with
      | nil => exact absurd rfl hraw1
      | cons c rest => rfl
    have hname : unquote (plusToSpace ['u', 'r', 'l']) = urlKey := by decide
    simp only [List.filterMap_cons, List.filterMap_nil, hne, hfirst,
      Bool.false_eq_true, if_false, hrawne, plusToSpace_eq_self hraw4, hname]
  have hresolved :
      resolveImageUrl (pre ++ '?' :: ("url=".toList ++ raw)) =
        some (unquote (unquote raw)) := by
    rw [resolveImageUrl, hq, hqsl]
    rw [List.find?_cons_of_pos _ (by simp [urlKey])]
  refine ⟨hresolved, fun fetchOk hf => ?_⟩
  have hne2 : (pre ++ '?' :: ("url=".toList ++ raw)).isEmpty = false := by
    cases pre <;> rfl
  simp only [download_image, hne2, Bool.false_eq_true, if_false, hresolved, hf, if_true]

/-- Witness for C4 (amended) at the spec's example relay URL: the resolved
URL is `https://cdn.example/photo.jpg` and the filename is `photo.jpg`. -/
theorem c4_amended_double_decoding_witness :
    resolveImageUrl
        "https://relay.example/img?url=https%3A%2F%2Fcdn.example%2Fphoto.jpg".toList =
      some "https://cdn.example/photo.jpg".toList ∧
    download_image (fun _ => true)
        (some "https://relay.example/img?url=https%3A%2F%2Fcdn.example%2Fphoto.jpg".toList) =
      some "photo.jpg".toList := by
  have h := c4_amended_double_decoding "https://relay.example/img".toList
    "https%3A%2F%2Fcdn.example%2Fphoto.jpg".toList
    (by decide) (by decide) (by decide) (by decide) (by decide) (by decide)
  have heq :
      "https://relay.example/img?url=https%3A%2F%2Fcdn.example%2Fphoto.jpg".toList =
        "https://relay.example/img".toList ++
          '?' :: ("url=".toList ++ "https%3A%2F%2Fcdn.example%2Fphoto.jpg".toList) := by
    decide
  have hval :
      unquote (unquote "https%3A%2F%2Fcdn.example%2Fphoto.jpg".toList) =
        "https://cdn.example/photo.jpg".toList := by decide
  have hlast : lastSegment "https://cdn.example/photo.jpg".toList = "photo.jpg".toList := by
    decide
  constructor
  · rw [heq, h.1, hval]
  · rw [heq, h.2 (fun _ => true) rfl, hval, hlast]

/-- C5 counterexample: with the title lookup failing and every other
lookup succeeding, the code does not substitute an empty title — the whole
extraction fails (the single `try` block logs and re-raises) and nothing
is written. -/
theorem c5_counterexample_missing_title_fatal :
    extract_news
        { first_item := some (), image_src := some none,
          title_text := none,
          description_text := some "A description".toList,
          date_text := some "May 5, 2024".toList }
        (fun _ => true) true "output".toList "ship".toList =
      (Except.error (), []) := rfl

/-- C5 (amended): if any of the title, description or date lookups fails,
the extraction call as a whole fails (the exception is logged and
re-raised) and no spreadsheet row is written; no empty-string defaulting
of individual fields occurs. -/
theorem c5_amended_missing_field_fatal (pg : PageQueries) (fetchOk : List Char → Bool)
    (excelOk : Bool) (outputDir phrase : List Char)
    (h : pg.title_text = none ∨ pg.description_text = none ∨ pg.date_text = none) :
    extract_news pg fetchOk excelOk outputDir phrase = (Except.error (), []) := by
  rcases hfi : pg.first_item with _ | u
  · simp [extract_news, hfi]
  rcases his : pg.image_src with _ | iu
  · simp [extract_news, hfi, his]
  rcases htt : pg.title_text with _ | tt
  · simp [extract_news, hfi, his, htt]
  rcases hdt : pg.description_text with _ | dt
  · simp [extract_news, hfi, his, htt, hdt]
  rcases hda : pg.date_text with _ | da
  · simp [extract_news, hfi, his, htt, hdt, hda]
  rcases h with h | h | h
  · rw [htt] at h
    simp at h
  · rw [hdt] at h
    simp at h
  · rw [hda] at h
    simp at h

/-- Witness for C5 (amended) at a page whose description lookup fails. -/
theorem c5_amended_missing_field_fatal_witness :
    extract_news
        { first_item := some (), image_src := some none,
          title_text := some "T".toList, description_text := none,
          date_text := some "D".toList }
        (fun _ => true) true [] [] =
      (Except.error (), []) :=
  c5_amended_missing_field_fatal _ _ _ _ _ (Or.inr (Or.inl rfl))

/-- C7: if locating the first entry of the results list fails, the
extraction call fails and no spreadsheet row — neither header nor data —
is written. -/
theorem c7_no_results_nothing_written (pg : PageQueries) (fetchOk : List Char → Bool)
    (excelOk : Bool) (outputDir phrase : List Char)
    (h : pg.first_item = none) :
    extract_news pg fetchOk excelOk outputDir phrase = (Except.error (), []) := by
  simp [extract_news, h]

/-- Witness for C7 at a page with an empty results list. -/
theorem c7_no_results_nothing_written_witness :
    extract_news
        { first_item := none, image_src := some none, title_text := some [],
          description_text := some [], date_text := some [] }
        (fun _ => true) true [] [] =
      (Except.error (), []) :=
  c7_no_results_nothing_written _ _ _ _ _ rfl

/-- C8: for every combination of step outcomes, `run` propagates no
exception and the browser is closed — the `except` block swallows every
step failure and the `finally` block closes the browser on every path. -/
theorem c8_run_swallows_and_closes (openOk searchOk : Bool) (pg : PageQueries)
    (fetchOk : List Char → Bool) (excelOk : Bool) (outputDir phrase : List Char) :
    (run openOk searchOk pg fetchOk excelOk outputDir phrase).1.raised = false ∧
      (run openOk searchOk pg fetchOk excelOk outputDir phrase).1.browserClosed = true :=
  ⟨rfl, rfl⟩

/-- C9: persisting one article writes exactly one header row — the six
field names `Title`, `Date`, `Description`, `Image Filename`,
`Count of Search Phrases`, `Contains Money` in that order — followed by
exactly one data row with the article's values in the same field order,
to `news_data.xlsx` under the output directory. -/
theorem c9_save_header_then_row (outputDir : List Char) (a : Article) :
    save_to_excel true outputDir [a] =
        Except.ok (osJoin outputDir "news_data.xlsx".toList,
          [headerCells, articleCells a]) ∧
      headerCells = [Cell.str "Title".toList, Cell.str "Date".toList,
        Cell.str "Description".toList, Cell.str "Image Filename".toList,
        Cell.str "Count of Search Phrases".toList, Cell.str "Contains Money".toList] ∧
      articleCells a = [Cell.str a.title, Cell.str a.date, Cell.str a.description,
        (match a.imageFilename with | some f => Cell.str f | none => Cell.empty),
        Cell.num a.searchPhraseCount, Cell.bool a.containsMoney] :=
  ⟨rfl, rfl, rfl⟩

/-- C6: when the image URL is absent, when its query has no `url`
parameter, or when the fetch of the resolved URL fails, `download_image`
returns `None` (never raises), and extraction still succeeds with title,
description and date populated and no image filename. -/
theorem c6_image_failure_non_fatal (pg : PageQueries) (fetchOk : List Char → Bool)
    (outputDir phrase : List Char) (image_url : Option (List Char))
    (title description date : List Char)
    (hfi : pg.first_item = some ()) (his : pg.image_src = some image_url)
    (htt : pg.title_text = some title) (hdt : pg.description_text = some description)
    (hda : pg.date_text = some date)
    (hfail : image_url = none ∨ ∃ v, image_url = some v ∧
      (resolveImageUrl v = none ∨ ∃ a, resolveImageUrl v = some a ∧ fetchOk a = false)) :
    download_image fetchOk image_url = none ∧
      extract_news pg fetchOk true outputDir phrase =
        (Except.ok
          { title := title, date := date, description := description,
            imageFilename := none,
            searchPhraseCount := count_search_phrases title description phrase,
            containsMoney := check_for_money title description },
         [headerCells,
          articleCells
            { title := title, date := date, description := description,
              imageFilename := none,
              searchPhraseCount := count_search_phrases title description phrase,
              containsMoney := check_for_money title description }]) := by
  have hdl : download_image fetchOk image_url = none := by
    rcases hfail with rfl | ⟨v, rfl, hfail⟩
    · rfl
    · rcases hfail with hres | ⟨a, hres, hfa⟩
      · cases hv : v.isEmpty <;> simp [download_image, hv, hres]
      · cases hv : v.isEmpty <;> simp [download_image, hv, hres, hfa]
  refine ⟨hdl, ?_⟩
  simp only [extract_news, hfi, his, htt, hdt, hda, hdl, save_to_excel, if_true,
    List.map_cons, List.map_nil]

/-- Witness for C6: a present image element whose relay URL has no query
string (so no `url` parameter) yields no filename, and extraction still
succeeds with the three text fields populated. -/
theorem c6_image_failure_non_fatal_witness :
    download_image (fun _ => true) (some "https://relay.example/img".toList) = none ∧
      extract_news
          { first_item := some (),
            image_src := some (some "https://relay.example/img".toList),
            title_text := some "T".toList, description_text := some "D".toList,
            date_text := some "X".toList }
          (fun _ => true) true "output".toList "T".toList =
        (Except.ok
          { title := "T".toList, date := "X".toList, description := "D".toList,
            imageFilename := none,
            searchPhraseCount := count_search_phrases "T".toList "D".toList "T".toList,
            containsMoney := check_for_money "T".toList "D".toList },
         [headerCells,
          articleCells
            { title := "T".toList, date := "X".toList, description := "D".toList,
              imageFilename := none,
              searchPhraseCount := count_search_phrases "T".toList "D".toList "T".toList,
              containsMoney := check_for_money "T".toList "D".toList }]) :=
  c6_image_failure_non_fatal _ (fun _ => true) _ _
    (some "https://relay.example/img".toList)
    "T".toList "D".toList "X".toList rfl rfl rfl rfl rfl
    (Or.inr ⟨_, rfl, Or.inl (by decide)⟩)
